import Mathlib

/-
Shallow embedding of the backtesting core of the trading-strategy-lab
repository (src/backtester/portfolio.py, src/backtester/engine.py,
src/backtester/trade.py).  Python floats are modelled as exact rationals,
pandas timestamps as natural numbers, Python dicts as insertion-ordered
association lists with the usual dict get/set/delete semantics, and a
pandas DataFrame as its column list together with the ordered sequence of
(timestamp, close) bars that the engine actually reads.
-/

namespace TradingLab

/-- Dict lookup: value stored under key k, if any (Python d.get(k) / k in d). -/
def dictGet {α : Type} : List (String × α) → String → Option α
  | [], _ => none
  | e :: rest, k => if e.1 == k then some e.2 else dictGet rest k

/-- Dict assignment d[k] = v: replaces the entry in place when the key is
present (Python dicts keep the original insertion position on update),
otherwise appends at the end. -/
def dictSet {α : Type} : List (String × α) → String → α → List (String × α)
  | [], k, v => [(k, v)]
  | e :: rest, k, v => if e.1 == k then (k, v) :: rest else e :: dictSet rest k v

/-- Dict deletion del d[k]: removes the entry for key k. -/
def dictErase {α : Type} (d : List (String × α)) (k : String) : List (String × α) :=
  d.filter (fun e => !(e.1 == k))

/-- Position dataclass from src/backtester/portfolio.py. -/
structure Position where
  symbol : String
  shares : ℚ
  entry_price : ℚ
  entry_date : Nat
deriving DecidableEq

/-- Total cost of position: shares * entry_price. -/
def Position.cost_basis (p : Position) : ℚ := p.shares * p.entry_price

/-- Current market value: shares * current_price. -/
def Position.current_value (p : Position) (current_price : ℚ) : ℚ :=
  p.shares * current_price

/-- Unrealized profit/loss. -/
def Position.unrealized_pnl (p : Position) (current_price : ℚ) : ℚ :=
  p.current_value current_price - p.cost_basis

/-- Portfolio state from src/backtester/portfolio.py: cash, the
symbol-to-position dict, and the four history lists grown by
update_history. -/
structure Portfolio where
  initial_cash : ℚ
  cash : ℚ
  positions : List (String × Position)
  equity_history : List ℚ
  cash_history : List ℚ
  position_value_history : List ℚ
  dates : List Nat
deriving DecidableEq

/-- Portfolio.__init__: start with the given cash and no positions. -/
def Portfolio.init (initial_cash : ℚ) : Portfolio :=
  ⟨initial_cash, initial_cash, [], [], [], [], []⟩

/-- Total value of all positions at cost basis. -/
def Portfolio.position_value (pf : Portfolio) : ℚ :=
  (pf.positions.map (fun e => e.2.cost_basis)).sum

/-- Total portfolio value at cost basis. -/
def Portfolio.total_value (pf : Portfolio) : ℚ :=
  pf.cash + pf.position_value

/-- Portfolio.has_position: the symbol is in the dict and has shares > 0. -/
def Portfolio.has_position (pf : Portfolio) (symbol : String) : Bool :=
  match dictGet pf.positions symbol with
  | some p => decide (0 < p.shares)
  | none => false

/-- Portfolio.get_position: the stored position or none. -/
def Portfolio.get_position (pf : Portfolio) (symbol : String) : Option Position :=
  dictGet pf.positions symbol

/-- Portfolio.buy from src/backtester/portfolio.py: rejects (returns false,
state unchanged) when cost = shares*price + commission exceeds cash;
otherwise debits cash and creates the position or merges it into an
existing one at the volume-weighted average price, keeping the original
entry_date. -/
def Portfolio.buy (pf : Portfolio) (symbol : String) (shares price : ℚ)
    (date : Nat) (commission : ℚ) : Bool × Portfolio :=
  let cost := shares * price + commission
  if pf.cash < cost then (false, pf)
  else
    let pf1 : Portfolio := { pf with cash := pf.cash - cost }
    match dictGet pf1.positions symbol with
    | some existing =>
        let total_shares := existing.shares + shares
        let total_cost := existing.cost_basis + shares * price
        let avg_price := total_cost / total_shares
        let merged : Position := ⟨symbol, total_shares, avg_price, existing.entry_date⟩
        (true, { pf1 with positions := dictSet pf1.positions symbol merged })
    | none =>
        let fresh : Position := ⟨symbol, shares, price, date⟩
        (true, { pf1 with positions := dictSet pf1.positions symbol fresh })

/-- Portfolio.sell from src/backtester/portfolio.py: no-op returning none
when there is no open position; otherwise sells min(requested, held)
shares (a none request means the whole position), credits cash by
proceeds = sold*price - commission, returns the realized pnl, and deletes
or shrinks the stored position. -/
def Portfolio.sell (pf : Portfolio) (symbol : String) (shares : Option ℚ)
    (price : ℚ) (_date : Nat) (commission : ℚ) : Option ℚ × Portfolio :=
  if pf.has_position symbol = false then (none, pf)
  else
    match dictGet pf.positions symbol with
    | none => (none, pf)
    | some position =>
        let shares_to_sell := min (shares.getD position.shares) position.shares
        let proceeds := shares_to_sell * price - commission
        let cost_basis_sold := shares_to_sell * position.entry_price
        let realized_pnl := proceeds - cost_basis_sold
        let pf1 : Portfolio := { pf with cash := pf.cash + proceeds }
        if position.shares ≤ shares_to_sell then
          (some realized_pnl, { pf1 with positions := dictErase pf1.positions symbol })
        else
          let reduced : Position :=
            ⟨symbol, position.shares - shares_to_sell, position.entry_price, position.entry_date⟩
          (some realized_pnl, { pf1 with positions := dictSet pf1.positions symbol reduced })

/-- Portfolio.update_history: appends one snapshot (date, equity, cash,
position value) marking positions to market at the supplied prices, with
the entry price as fallback. -/
def Portfolio.update_history (pf : Portfolio) (date : Nat)
    (current_prices : List (String × ℚ)) : Portfolio :=
  let position_value :=
    (pf.positions.map
      (fun e => e.2.current_value ((dictGet current_prices e.2.symbol).getD e.2.entry_price))).sum
  let total_value := pf.cash + position_value
  { pf with
    dates := pf.dates ++ [date]
    equity_history := pf.equity_history ++ [total_value]
    cash_history := pf.cash_history ++ [pf.cash]
    position_value_history := pf.position_value_history ++ [position_value] }

/-- Portfolio.get_equity_curve: the equity history as a date-indexed series. -/
def Portfolio.get_equity_curve (pf : Portfolio) : List (Nat × ℚ) :=
  pf.dates.zip pf.equity_history

/-- Trade dataclass from src/backtester/trade.py: one completed round trip. -/
structure Trade where
  symbol : String
  entry_date : Nat
  entry_price : ℚ
  exit_date : Nat
  exit_price : ℚ
  shares : ℚ
  side : String
  entry_commission : ℚ
  exit_commission : ℚ
deriving DecidableEq

/-- Profit/loss before commissions. -/
def Trade.gross_pnl (t : Trade) : ℚ :=
  if t.side = "long" then t.shares * (t.exit_price - t.entry_price)
  else t.shares * (t.entry_price - t.exit_price)

/-- Total commission paid. -/
def Trade.commission_paid (t : Trade) : ℚ := t.entry_commission + t.exit_commission

/-- Profit/loss after commissions. -/
def Trade.net_pnl (t : Trade) : ℚ := t.gross_pnl - t.commission_paid

/-- BacktestResult from src/backtester/trade.py; the metrics mapping (an
output of the external metrics collaborator) is not modelled because no
claim concerns it. -/
structure BacktestResult where
  strategy_name : String
  symbol : String
  start_date : Nat
  end_date : Nat
  initial_capital : ℚ
  final_capital : ℚ
  equity_curve : List (Nat × ℚ)
  trades : List Trade
deriving DecidableEq

/-- Total number of trades. -/
def BacktestResult.num_trades (r : BacktestResult) : Nat := r.trades.length

/-- A pandas DataFrame as the engine reads it: the column labels and the
ordered (timestamp, close) bars. -/
structure DataFrame where
  cols : List String
  rows : List (Nat × ℚ)
deriving DecidableEq

/-- A strategy: its name and generate_signals, producing the timestamp
indexed signal series for a data frame. -/
structure Strategy where
  name : String
  generate_signals : DataFrame → List (Nat × Int)

/-- Signal lookup in the engine loop: signals.loc[date] when the date is in
the signal index, else 0. -/
def sigAt : List (Nat × Int) → Nat → Int
  | [], _ => 0
  | e :: rest, date => if e.1 == date then e.2 else sigAt rest date

/-- Truncation toward zero, the semantics of the python int() conversion on
a float. -/
def ratTrunc (q : ℚ) : ℤ := if q < 0 then ⌈q⌉ else ⌊q⌋

/-- Backtester configuration from src/backtester/engine.py. -/
structure Backtester where
  initial_capital : ℚ
  commission_pct : ℚ
  slippage_pct : ℚ
  position_size_pct : ℚ
deriving DecidableEq

/-- Backtester.calculate_shares: max whole shares affordable with
commission; 0 when price or capital is not positive. -/
def Backtester.calculate_shares (bt : Backtester) (price available_capital : ℚ) : ℤ :=
  if price ≤ 0 ∨ available_capital ≤ 0 then 0
  else
    let max_shares := available_capital / (price * (1 + bt.commission_pct))
    ratTrunc max_shares

/-- Backtester.calculate_commission: commission cost for a trade. -/
def Backtester.calculate_commission (bt : Backtester) (shares price : ℚ) : ℚ :=
  let trade_value := shares * price
  trade_value * bt.commission_pct

/-- Backtester.apply_slippage: pay more when buying, receive less selling. -/
def Backtester.apply_slippage (bt : Backtester) (price : ℚ) (side : String) : ℚ :=
  if side == "buy" then price * (1 + bt.slippage_pct)
  else price * (1 - bt.slippage_pct)

/-- The per-symbol entry metadata recorded in open_trade_entry on a
successful buy. -/
structure EntryInfo where
  entry_date : Nat
  entry_price : ℚ
  shares : ℚ
  entry_commission : ℚ
deriving DecidableEq

/-- The mutable state of one Backtester.run call: the portfolio, the trade
list and the open_trade_entry dict. -/
structure RunState where
  portfolio : Portfolio
  trades : List Trade
  open_trade_entry : List (String × EntryInfo)
deriving DecidableEq

/-- Backtester._process_buy_signal: skip when a position is already open;
apply buy-side slippage, size the order, skip when no whole share is
affordable, otherwise buy and on success record the entry metadata. -/
def Backtester.process_buy_signal (bt : Backtester) (st : RunState)
    (symbol : String) (date : Nat) (price : ℚ) : RunState :=
  if st.portfolio.has_position symbol then st
  else
    let execution_price := bt.apply_slippage price "buy"
    let available_capital := st.portfolio.cash * bt.position_size_pct
    let shares := bt.calculate_shares execution_price available_capital
    if shares ≤ 0 then st
    else
      let commission := bt.calculate_commission (shares : ℚ) execution_price
      let result := st.portfolio.buy symbol (shares : ℚ) execution_price date commission
      if result.1 then
        let info : EntryInfo := ⟨date, execution_price, (shares : ℚ), commission⟩
        { portfolio := result.2, trades := st.trades,
          open_trade_entry := dictSet st.open_trade_entry symbol info }
      else
        { st with portfolio := result.2 }

/-- Backtester._process_sell_signal: skip when no position is open; apply
sell-side slippage, sell the entire held quantity, and when entry metadata
exists construct the round-trip Trade and drop the metadata. -/
def Backtester.process_sell_signal (bt : Backtester) (st : RunState)
    (symbol : String) (date : Nat) (price : ℚ) : RunState :=
  if st.portfolio.has_position symbol = false then st
  else
    match st.portfolio.get_position symbol with
    | none => st
    | some position =>
        let execution_price := bt.apply_slippage price "sell"
        let shares := position.shares
        let commission := bt.calculate_commission shares execution_price
        let sellResult := st.portfolio.sell symbol none execution_price date commission
        let st1 : RunState := { st with portfolio := sellResult.2 }
        match dictGet st1.open_trade_entry symbol with
        | some entry_info =>
            let trade : Trade :=
              ⟨symbol, entry_info.entry_date, entry_info.entry_price, date,
               execution_price, shares, "long", entry_info.entry_commission, commission⟩
            { st1 with trades := st1.trades ++ [trade],
                       open_trade_entry := dictErase st1.open_trade_entry symbol }
        | none => st1

/-- The per-bar loop of Backtester.run: read the close and the signal,
dispatch on +1 and -1, then record one history snapshot at the raw close. -/
def Backtester.runLoop (bt : Backtester) (symbol : String)
    (signals : List (Nat × Int)) : List (Nat × ℚ) → RunState → RunState
  | [], st => st
  | (date, close) :: rest, st =>
      let signal := sigAt signals date
      let st1 :=
        if signal = 1 then bt.process_buy_signal st symbol date close
        else if signal = -1 then bt.process_sell_signal st symbol date close
        else st
      let st2 : RunState := { st1 with portfolio := st1.portfolio.update_history date [(symbol, close)] }
      Backtester.runLoop bt symbol signals rest st2

/-- The engine state right after the per-bar loop of Backtester.run,
before the end-of-series forced liquidation. -/
def Backtester.runLoopState (bt : Backtester) (strategy : Strategy)
    (data : DataFrame) (symbolOpt : Option String) : RunState :=
  let symbol := symbolOpt.getD "UNKNOWN"
  let signals := strategy.generate_signals data
  let st0 : RunState := ⟨Portfolio.init bt.initial_capital, [], []⟩
  Backtester.runLoop bt symbol signals data.rows st0

/-- The engine state at the end of Backtester.run: the loop state, with any
position still open force-closed at the final close price. -/
def Backtester.runFinalState (bt : Backtester) (strategy : Strategy)
    (data : DataFrame) (symbolOpt : Option String) : RunState :=
  let symbol := symbolOpt.getD "UNKNOWN"
  let st := bt.runLoopState strategy data symbolOpt
  if st.portfolio.has_position symbol then
    let final_price := ((data.rows.getLast?).map (fun e => e.2)).getD 0
    let final_date := ((data.rows.getLast?).map (fun e => e.1)).getD 0
    bt.process_sell_signal st symbol final_date final_price
  else st

/-- Backtester.run: raise on an empty frame or a missing close column,
otherwise run the loop, force-close, and assemble the BacktestResult. -/
def Backtester.run (bt : Backtester) (strategy : Strategy)
    (data : DataFrame) (symbolOpt : Option String) : Except String BacktestResult :=
  if data.rows = [] then Except.error "data cannot be empty"
  else if "close" ∉ data.cols then Except.error "data must contain close column"
  else
    let symbol := symbolOpt.getD "UNKNOWN"
    let st := bt.runFinalState strategy data symbolOpt
    Except.ok
      { strategy_name := strategy.name
        symbol := symbol
        start_date := ((data.rows.head?).map (fun e => e.1)).getD 0
        end_date := ((data.rows.getLast?).map (fun e => e.1)).getD 0
        initial_capital := bt.initial_capital
        final_capital := st.portfolio.total_value
        equity_curve := st.portfolio.get_equity_curve
        trades := st.trades }

/-- The start_idx variable of the while loop in
Backtester.walk_forward_analysis after n iterations: it starts at 0 and
each iteration adds step_size. -/
def walkForwardStartIdx (step_size : ℤ) : Nat → ℤ
  | 0 => 0
  | n + 1 => walkForwardStartIdx step_size n + step_size

/-- The guard of the while loop in Backtester.walk_forward_analysis:
start_idx + train_size + test_size <= len(data). -/
abbrev walkForwardGuard (dataLen train_size test_size : Nat) (start_idx : ℤ) : Prop :=
  start_idx + (train_size : ℤ) + (test_size : ℤ) ≤ (dataLen : ℤ)

/-- Python slice-bound normalization for a sequence of length n, as used by
pandas iloc integer slicing: a negative bound counts from the end and is
clamped at 0, a nonnegative bound is clamped at n. -/
def sliceNorm (n : Nat) (i : ℤ) : Nat :=
  if i < 0 then (max ((n : ℤ) + i) 0).toNat else min i.toNat n

/-- The rows of data.iloc[a:b]: the elements from the normalized lower
bound up to the normalized upper bound. -/
def ilocSlice {α : Type} (rows : List α) (a b : ℤ) : List α :=
  (rows.drop (sliceNorm rows.length a)).take (sliceNorm rows.length b - sliceNorm rows.length a)

/-- The body of one walk_forward_analysis iteration raises: self.run on
test_data = data.iloc[train_end:test_end] raises a ValueError exactly when
that slice is empty or the close column is missing. -/
def wfRunRaises (data : DataFrame) (train_size test_size : Nat) (start_idx : ℤ) : Prop :=
  ilocSlice data.rows (start_idx + train_size) (start_idx + train_size + test_size) = [] ∨
  "close" ∉ data.cols

/-- Termination of the walk_forward_analysis while loop: at some iteration
count the guard fails (normal exit) or the body's run call raises (the
exception propagates out of the loop). Guard and raise condition depend
only on the start index, which after n iterations is
walkForwardStartIdx step_size n. -/
def walkForwardTerminates (data : DataFrame) (train_size test_size : Nat)
    (step_size : ℤ) : Prop :=
  ∃ n : Nat,
    ¬ walkForwardGuard data.rows.length train_size test_size
        (walkForwardStartIdx step_size n) ∨
    wfRunRaises data train_size test_size (walkForwardStartIdx step_size n)

/-- A concrete portfolio holding 10 shares of A at entry price 100, used to
exercise the merge branch of Portfolio.buy. -/
def pfMergeW : Portfolio := ⟨100000, 2400, [("A", ⟨"A", 10, 100, 0⟩)], [], [], [], []⟩

/-- Trade list of a run result; empty when the run raised. -/
def runTrades (x : Except String BacktestResult) : List Trade :=
  match x with
  | Except.ok r => r.trades
  | Except.error _ => []

/-- Final capital of a run result; 0 when the run raised. -/
def runFinalCapital (x : Except String BacktestResult) : ℚ :=
  match x with
  | Except.ok r => r.final_capital
  | Except.error _ => 0

/-- Equity curve of a run result; empty when the run raised. -/
def runEquityCurve (x : Except String BacktestResult) : List (Nat × ℚ) :=
  match x with
  | Except.ok r => r.equity_curve
  | Except.error _ => []

/-- The 5-bar close series of the worked numeric example in the spec. -/
def dfC8 : DataFrame := ⟨["close"], [(0, 100), (1, 102), (2, 101), (3, 105), (4, 103)]⟩

/-- The signal series 0,1,0,0,-1 of the worked numeric example. -/
def stratC8 : Strategy := ⟨"example-signals", fun _ => [(0, 0), (1, 1), (2, 0), (3, 0), (4, -1)]⟩

/-- The backtester configuration of the worked numeric example: capital
100000, commission 0.1 percent, slippage 0.05 percent, full sizing. -/
def btC8 : Backtester := ⟨100000, 1 / 1000, 5 / 10000, 1⟩

/-- A 2-bar close series whose single buy signal leaves a position open
after the last bar, forcing the final liquidation of the run. -/
def dfOpenEnd : DataFrame := ⟨["close"], [(0, 100), (1, 100)]⟩

/-- A strategy emitting one buy signal on the first bar and nothing else. -/
def stratOpenEnd : Strategy := ⟨"buy-and-hold", fun _ => [(0, 1)]⟩

/-- A run state with 1000 cash, no positions and no trades, used to
exercise the buy-signal sizing rule at concrete inputs. -/
def stBuyW : RunState := ⟨Portfolio.init 1000, [], []⟩

/-- A backtester with zero commission and slippage and full sizing. -/
def btPlain : Backtester := ⟨1000, 0, 0, 1⟩

/-- One iteration of the per-bar loop: signal dispatch followed by the
history snapshot. Definitionally the body of Backtester.runLoop. -/
def barStep (bt : Backtester) (symbol : String) (sigs : List (Nat × Int))
    (d : Nat) (c : ℚ) (st : RunState) : RunState :=
  let st1 :=
    if sigAt sigs d = 1 then bt.process_buy_signal st symbol d c
    else if sigAt sigs d = -1 then bt.process_sell_signal st symbol d c
    else st
  { st1 with portfolio := st1.portfolio.update_history d [(symbol, c)] }

/-- Invariant of the single-symbol run loop: either no position is held and
no entry metadata is pending, or exactly one position with positive shares
is held for the traded symbol together with exactly one pending entry
record. -/
def RunInv (symbol : String) (st : RunState) : Prop :=
  (st.portfolio.positions = [] ∧ st.open_trade_entry = []) ∨
  (∃ p e, st.portfolio.positions = [(symbol, p)] ∧ 0 < p.shares ∧
    st.open_trade_entry = [(symbol, e)])

/-- A strategy producing an empty signal series, so every per-bar lookup
falls back to 0. -/
def stratFlat : Strategy := ⟨"flat", fun _ => []⟩

lemma apply_slippage_buy (bt : Backtester) (price : ℚ) :
    bt.apply_slippage price "buy" = price * (1 + bt.slippage_pct) := by
  simp [Backtester.apply_slippage]

lemma apply_slippage_sell (bt : Backtester) (price : ℚ) :
    bt.apply_slippage price "sell" = price * (1 - bt.slippage_pct) := by
  have h : (("sell" : String) == "buy") = false := by decide
  simp [Backtester.apply_slippage, h]

lemma dictGet_dictSet_self {α : Type} (d : List (String × α)) (k : String) (v : α) :
    dictGet (dictSet d k v) k = some v := by
  induction d with
  | nil => simp [dictSet, dictGet]
  | cons e rest ih =>
      rcases e with ⟨k1, v1⟩
      by_cases h : k1 = k
      · subst h; simp [dictSet, dictGet]
      · simp [dictSet, dictGet, h, ih]

lemma dictGet_dictErase_self {α : Type} (d : List (String × α)) (k : String) :
    dictGet (dictErase d k) k = none := by
  induction d with
  | nil => rfl
  | cons e rest ih =>
      rcases e with ⟨k1, v1⟩
      by_cases h : k1 = k
      · simpa [dictErase, List.filter_cons, h] using ih
      · simpa [dictErase, List.filter_cons, h, dictGet] using ih

/-- C1: a buy whose cost shares*price + commission exceeds the available
cash returns false and leaves the whole portfolio (cash and positions)
unchanged; an affordable buy returns true and debits exactly the cost, so
cash stays nonnegative: Portfolio.buy preserves the cash >= 0 invariant. -/
theorem buy_insolvency_guard (pf : Portfolio) (symbol : String) (shares price : ℚ)
    (date : Nat) (commission : ℚ) (_hcash : 0 ≤ pf.cash) :
    (pf.cash < shares * price + commission →
        pf.buy symbol shares price date commission = (false, pf)) ∧
    (shares * price + commission ≤ pf.cash →
        (pf.buy symbol shares price date commission).1 = true ∧
        (pf.buy symbol shares price date commission).2.cash
          = pf.cash - (shares * price + commission) ∧
        0 ≤ pf.cash - (shares * price + commission)) := by
  constructor
  · intro h
    simp [Portfolio.buy, h]
  · intro h
    have hlt : ¬ pf.cash < shares * price + commission := not_lt.2 h
    refine ⟨?_, ?_, sub_nonneg.2 h⟩ <;>
      cases hg : dictGet pf.positions symbol <;>
      simp [Portfolio.buy, hlt, hg]

/-- Witness for C1 at concrete inputs: a 150-cost buy against 100 cash is
rejected with the portfolio unchanged. -/
theorem buy_insolvency_guard_witness :
    (Portfolio.init 100).buy "A" 3 50 0 0 = (false, Portfolio.init 100) :=
  (buy_insolvency_guard (Portfolio.init 100) "A" 3 50 0 0
      (by norm_num [Portfolio.init])).1 (by norm_num [Portfolio.init])

/-- C2: a successful buy into an existing position merges at the
volume-weighted average price (commission excluded from the basis) and
keeps the original entry_date of the existing position. -/
theorem buy_merges_at_volume_weighted_average (pf : Portfolio) (symbol : String)
    (shares price : ℚ) (date : Nat) (commission : ℚ) (old : Position)
    (hold : pf.get_position symbol = some old)
    (haff : shares * price + commission ≤ pf.cash) :
    (pf.buy symbol shares price date commission).1 = true ∧
    (pf.buy symbol shares price date commission).2.get_position symbol =
      some ⟨symbol, old.shares + shares,
            (old.shares * old.entry_price + shares * price) / (old.shares + shares),
            old.entry_date⟩ := by
  have hlt : ¬ pf.cash < shares * price + commission := not_lt.2 haff
  simp only [Portfolio.get_position] at hold
  constructor <;>
    simp [Portfolio.buy, hlt, hold, Portfolio.get_position, Position.cost_basis,
      dictGet_dictSet_self]

/-- Witness for C2 at the concrete example from the spec: 10 shares at 100
merged with 10 shares at 120 (no commission) gives 20 shares at entry
price 110, entry date preserved. -/
theorem buy_merges_witness :
    ((pfMergeW.buy "A" 10 120 7 0).2.get_position "A" =
      some ⟨"A", 10 + 10, (10 * 100 + 10 * 120) / (10 + 10), 0⟩) ∧
    ((10 : ℚ) * 100 + 10 * 120) / (10 + 10) = 110 :=
  ⟨(buy_merges_at_volume_weighted_average pfMergeW "A" 10 120 7 0 ⟨"A", 10, 100, 0⟩
      (by simp [pfMergeW, Portfolio.get_position, dictGet])
      (by norm_num [pfMergeW])).2, by norm_num⟩

/-- C3: Portfolio.sell is a no-op returning none when no open position
exists; otherwise it sells min(requested, held) shares (absent request
means the whole position), returns proceeds minus the sold cost basis,
credits cash by the proceeds, deletes the mapping entry on full
liquidation and otherwise keeps the reduced position at the unchanged
entry price and entry date. -/
theorem sell_clamps_and_liquidates (pf : Portfolio) (symbol : String)
    (sharesReq : Option ℚ) (price : ℚ) (date : Nat) (commission : ℚ) :
    (pf.has_position symbol = false →
        pf.sell symbol sharesReq price date commission = (none, pf)) ∧
    (∀ position : Position, pf.get_position symbol = some position →
      0 < position.shares →
      ((pf.sell symbol sharesReq price date commission).1 =
          some ((min (sharesReq.getD position.shares) position.shares * price - commission)
            - min (sharesReq.getD position.shares) position.shares * position.entry_price) ∧
       (pf.sell symbol sharesReq price date commission).2.cash =
          pf.cash + (min (sharesReq.getD position.shares) position.shares * price - commission) ∧
       (min (sharesReq.getD position.shares) position.shares = position.shares →
          (pf.sell symbol sharesReq price date commission).2.get_position symbol = none) ∧
       (min (sharesReq.getD position.shares) position.shares ≠ position.shares →
          (pf.sell symbol sharesReq price date commission).2.get_position symbol =
            some ⟨symbol, position.shares - min (sharesReq.getD position.shares) position.shares,
                  position.entry_price, position.entry_date⟩))) := by
  constructor
  · intro h
    simp [Portfolio.sell, h]
  · intro position hget hsh
    simp only [Portfolio.get_position] at hget
    have hpos : pf.has_position symbol = true := by
      simp [Portfolio.has_position, hget, hsh]
    refine ⟨?_, ?_, ?_, ?_⟩
    · by_cases hfull : position.shares ≤ min (sharesReq.getD position.shares) position.shares <;>
        simp [Portfolio.sell, hpos, hget, hfull]
    · by_cases hfull : position.shares ≤ min (sharesReq.getD position.shares) position.shares <;>
        simp [Portfolio.sell, hpos, hget, hfull]
    · intro heq
      have hfull : position.shares ≤ min (sharesReq.getD position.shares) position.shares :=
        le_of_eq heq.symm
      simp [Portfolio.sell, hpos, hget, hfull, Portfolio.get_position, dictGet_dictErase_self]
    · intro hne
      have hlt : min (sharesReq.getD position.shares) position.shares < position.shares :=
        lt_of_le_of_ne (min_le_right _ _) hne
      have hfull : ¬ position.shares ≤ min (sharesReq.getD position.shares) position.shares :=
        not_le.2 hlt
      simp [Portfolio.sell, hpos, hget, hfull, Portfolio.get_position, dictGet_dictSet_self]

/-- Witness for C3 at concrete inputs: requesting 99 shares when 10 are
held sells all 10 (clamping) and removes the mapping entry. -/
theorem sell_clamps_witness :
    ((pfMergeW.sell "A" (some 99) 120 3 5).1 =
        some ((min ((some (99 : ℚ)).getD 10) 10 * 120 - 5) - min ((some (99 : ℚ)).getD 10) 10 * 100) ∧
     (pfMergeW.sell "A" (some 99) 120 3 5).2.cash =
        pfMergeW.cash + (min ((some (99 : ℚ)).getD 10) 10 * 120 - 5) ∧
     (min ((some (99 : ℚ)).getD 10) 10 = 10 →
        (pfMergeW.sell "A" (some 99) 120 3 5).2.get_position "A" = none) ∧
     (min ((some (99 : ℚ)).getD 10) 10 ≠ 10 →
        (pfMergeW.sell "A" (some 99) 120 3 5).2.get_position "A" =
          some ⟨"A", 10 - min ((some (99 : ℚ)).getD 10) 10, 100, 0⟩)) :=
  (sell_clamps_and_liquidates pfMergeW "A" (some 99) 120 3 5).2
    ⟨"A", 10, 100, 0⟩ (by simp [pfMergeW, Portfolio.get_position, dictGet]) (by norm_num)


/-- C8: with initial capital 100000, commission 0.001, slippage 0.0005 and
full position sizing, the 5-bar close series 100,102,101,105,103 with
signals 0,1,0,0,-1 buys on the second bar at execution price 102*1.0005,
sells on the fifth bar at execution price 103*0.9995, and produces exactly
one trade, whose net pnl 677.265489 is strictly positive. -/
theorem concrete_run_single_winning_trade :
    (runTrades (btC8.run stratC8 dfC8 (some "TEST"))).map
        (fun t => (t.entry_date, t.entry_price, t.exit_date, t.exit_price)) =
      [(1, 102 * (1 + 5 / 10000), 4, 103 * (1 - 5 / 10000))] ∧
    (runTrades (btC8.run stratC8 dfC8 (some "TEST"))).length = 1 ∧
    (runTrades (btC8.run stratC8 dfC8 (some "TEST"))).map Trade.net_pnl
      = [677265489 / 1000000] ∧
    (0 : ℚ) < 677265489 / 1000000 := by
  norm_num [runTrades, Backtester.run, Backtester.runFinalState,
    Backtester.runLoopState, Backtester.runLoop,
    Backtester.process_buy_signal, Backtester.process_sell_signal,
    apply_slippage_buy, apply_slippage_sell, Backtester.calculate_shares,
    Backtester.calculate_commission, ratTrunc, sigAt,
    Portfolio.init, Portfolio.buy, Portfolio.sell,
    Portfolio.update_history, Portfolio.has_position,
    Portfolio.get_position, Portfolio.position_value,
    Portfolio.total_value, Position.cost_basis,
    Position.current_value, dictGet, dictSet,
    dictErase, btC8, stratC8, dfC8,
    Trade.net_pnl, Trade.gross_pnl, Trade.commission_paid,
    Portfolio.get_equity_curve, List.zip, List.zipWith,
    (show [((0 : Nat), (100 : ℚ)), (1, 102), (2, 101), (3, 105), (4, 103)] ≠ [] from by simp)]

/-- C7: Backtester.run signals an error precisely when the input series is
empty or lacks the close column; the guard runs before any engine state is
built, and every well-formed input yields a complete BacktestResult. -/
theorem run_raises_iff_malformed (bt : Backtester) (strategy : Strategy)
    (data : DataFrame) (symbolOpt : Option String) :
    ((∃ e, bt.run strategy data symbolOpt = Except.error e) ↔
      (data.rows = [] ∨ "close" ∉ data.cols)) ∧
    (data.rows ≠ [] → "close" ∈ data.cols →
      ∃ r, bt.run strategy data symbolOpt = Except.ok r) := by
  by_cases h1 : data.rows = [] <;> by_cases h2 : "close" ∈ data.cols <;>
    simp [Backtester.run, h1, h2]

/-- Witness for C7 at a concrete well-formed input: the run returns ok. -/
theorem run_raises_iff_malformed_witness :
    ∃ r, btC8.run stratC8 dfC8 (some "W") = Except.ok r :=
  (run_raises_iff_malformed btC8 stratC8 dfC8 (some "W")).2
    (by simp [dfC8]) (by simp [dfC8])

lemma walkForwardStartIdx_eq (step : ℤ) (n : Nat) :
    walkForwardStartIdx step n = (n : ℤ) * step := by
  induction n with
  | zero => simp [walkForwardStartIdx]
  | succ k ih =>
      simp only [walkForwardStartIdx, ih]
      push_cast
      ring

lemma sliceNorm_natCast (n m : Nat) : sliceNorm n (m : ℤ) = min m n := by
  simp [sliceNorm, not_lt.2 (Int.natCast_nonneg m)]

lemma length_ilocSlice {α : Type} (rows : List α) (a b : ℤ) :
    (ilocSlice rows a b).length =
      min (sliceNorm rows.length b - sliceNorm rows.length a)
        (rows.length - sliceNorm rows.length a) := by
  simp [ilocSlice, List.length_take, List.length_drop]

lemma ilocSlice_eq_nil_of_far_negative {α : Type} (rows : List α) (s : ℤ)
    (train_size test_size : Nat)
    (hs : s + (train_size : ℤ) + (test_size : ℤ) ≤ -(rows.length : ℤ) - 1) :
    ilocSlice rows (s + train_size) (s + train_size + test_size) = [] := by
  have ha : sliceNorm rows.length (s + train_size) = 0 := by
    simp only [sliceNorm]
    rw [if_pos (by omega)]
    rw [max_eq_right (by omega : (rows.length : ℤ) + (s + train_size) ≤ 0)]
    rfl
  have hb : sliceNorm rows.length (s + train_size + test_size) = 0 := by
    simp only [sliceNorm]
    rw [if_pos (by omega)]
    rw [max_eq_right (by omega : (rows.length : ℤ) + (s + train_size + test_size) ≤ 0)]
    rfl
  simp [ilocSlice, ha, hb]

/-- C9 counterexample: with step_size = 0, train_size = 2, test_size = 0 on
a 2-bar series the claim's hypotheses hold (step_size <= 0 and
train_size + test_size <= len(data)), yet the loop terminates: the first
in-guard iteration slices the empty window iloc[2:2] and the body's run
call raises, so the claimed nontermination for every step_size <= 0 input
is false. -/
theorem walk_forward_nonterminating_claim_counterexample :
    (0 : ℤ) ≤ 0 ∧
    (2 : ℤ) + (0 : ℤ) ≤ (dfOpenEnd.rows.length : ℤ) ∧
    walkForwardTerminates dfOpenEnd 2 0 0 := by
  refine ⟨le_refl 0, by norm_num [dfOpenEnd], ⟨0, Or.inr (Or.inl ?_)⟩⟩
  rfl

/-- C9 (amended): the walk_forward_analysis loop, with the body's run call
raising on an empty test window or a missing close column, fails to
terminate precisely when step_size = 0, test_size >= 1,
train_size + test_size <= len(data) and the close column is present.  In
particular it terminates on every input when step_size >= 1 (the start
index strictly increases out of the guard), but also whenever
step_size < 0 (the window eventually slices empty and run raises) and
whenever test_size = 0 (the first in-guard window is already empty). -/
theorem walk_forward_termination_characterization (data : DataFrame)
    (train_size test_size : Nat) (step_size : ℤ) :
    (walkForwardTerminates data train_size test_size step_size ↔
      ¬(step_size = 0 ∧ 1 ≤ test_size ∧
        (train_size : ℤ) + (test_size : ℤ) ≤ (data.rows.length : ℤ) ∧
        "close" ∈ data.cols)) ∧
    (1 ≤ step_size → ∀ n : Nat,
      walkForwardStartIdx step_size n < walkForwardStartIdx step_size (n + 1)) := by
  constructor
  · constructor
    · rintro ⟨n, hn⟩ ⟨hstep, htest, hfits, hclose⟩
      subst hstep
      rw [walkForwardStartIdx_eq, mul_zero] at hn
      rcases hn with hg | hr
      · exact hg (by simpa [walkForwardGuard] using hfits)
      · simp only [wfRunRaises] at hr
        rcases hr with hsl | hcl
        · have hb : ((train_size : ℤ) + (test_size : ℤ))
              = (((train_size + test_size : Nat)) : ℤ) := by
            push_cast; ring
          simp only [zero_add] at hsl
          rw [hb] at hsl
          have hlen := length_ilocSlice data.rows ((train_size : Nat) : ℤ)
            (((train_size + test_size : Nat)) : ℤ)
          rw [hsl, sliceNorm_natCast, sliceNorm_natCast] at hlen
          simp only [List.length_nil] at hlen
          omega
        · exact hcl hclose
    · intro h
      rcases lt_trichotomy step_size 0 with hneg | hzero | hpos
      · refine ⟨data.rows.length + train_size + test_size + 1, Or.inr (Or.inl ?_)⟩
        rw [walkForwardStartIdx_eq]
        apply ilocSlice_eq_nil_of_far_negative
        have hstep1 : step_size ≤ -1 := by omega
        have h1 : ((data.rows.length + train_size + test_size + 1 : Nat) : ℤ) * step_size
            ≤ ((data.rows.length + train_size + test_size + 1 : Nat) : ℤ) * (-1) :=
          mul_le_mul_of_nonneg_left hstep1 (Int.natCast_nonneg _)
        rw [mul_neg_one] at h1
        push_cast at h1 ⊢
        linarith
      · subst hzero
        by_cases htest : 1 ≤ test_size
        · by_cases hfits2 : (train_size : ℤ) + (test_size : ℤ) ≤ (data.rows.length : ℤ)
          · by_cases hclose2 : "close" ∈ data.cols
            · exact absurd ⟨rfl, htest, hfits2, hclose2⟩ h
            · exact ⟨0, Or.inr (Or.inr hclose2)⟩
          · refine ⟨0, Or.inl ?_⟩
            simp only [walkForwardStartIdx, walkForwardGuard]
            omega
        · have ht0 : test_size = 0 := by omega
          subst ht0
          refine ⟨0, Or.inr (Or.inl ?_)⟩
          simp [ilocSlice, walkForwardStartIdx]
      · have hstep : 1 ≤ step_size := hpos
        refine ⟨data.rows.length + 1, Or.inl ?_⟩
        rw [walkForwardStartIdx_eq]
        have hge : ((data.rows.length : ℤ) + 1) ≤ ((data.rows.length : ℤ) + 1) * step_size :=
          le_mul_of_one_le_right (by positivity) hstep
        have ht : (0 : ℤ) ≤ (train_size : ℤ) := Int.natCast_nonneg _
        have hs : (0 : ℤ) ≤ (test_size : ℤ) := Int.natCast_nonneg _
        simp only [walkForwardGuard, not_le]
        push_cast
        linarith
  · intro hstep n
    simp only [walkForwardStartIdx]
    linarith

/-- Witness for the amended C9 at concrete inputs: with step 1, windows 1
and 1 on a 2-bar series the loop terminates, and the start index strictly
increases. -/
theorem walk_forward_termination_characterization_witness :
    walkForwardTerminates dfOpenEnd 1 1 1 ∧
    (∀ n : Nat, walkForwardStartIdx 1 n < walkForwardStartIdx 1 (n + 1)) :=
  ⟨(walk_forward_termination_characterization dfOpenEnd 1 1 1).1.mpr (by norm_num),
   (walk_forward_termination_characterization dfOpenEnd 1 1 1).2 (by norm_num)⟩

/-- C4: on a buy signal with no open position, the engine executes at
close*(1+slippage_pct), sizes the order as the floor of
cash*position_size_pct / (execution_price*(1+commission_pct)), silently
skips the bar when that quantity is not positive, and otherwise calls
Portfolio.buy with that quantity, that price, and commission
commission_pct*shares*execution_price, recording the entry metadata on
success. -/
theorem process_buy_signal_follows_sizing_rule (bt : Backtester) (st : RunState)
    (symbol : String) (date : Nat) (price : ℚ)
    (hnopos : st.portfolio.has_position symbol = false)
    (hprice : 0 < price)
    (hslip : 0 < 1 + bt.slippage_pct)
    (hcomm : 0 < 1 + bt.commission_pct)
    (hcash : 0 ≤ st.portfolio.cash)
    (hpsize : 0 ≤ bt.position_size_pct) :
    (let execution_price := price * (1 + bt.slippage_pct)
     let quantity : ℤ := ⌊st.portfolio.cash * bt.position_size_pct /
        (execution_price * (1 + bt.commission_pct))⌋
     bt.calculate_shares execution_price (st.portfolio.cash * bt.position_size_pct) = quantity ∧
     (quantity ≤ 0 → bt.process_buy_signal st symbol date price = st) ∧
     (0 < quantity →
       bt.process_buy_signal st symbol date price =
         (let commission := bt.commission_pct * (quantity : ℚ) * execution_price
          let result := st.portfolio.buy symbol (quantity : ℚ) execution_price date commission
          if result.1 then
            { portfolio := result.2, trades := st.trades,
              open_trade_entry := dictSet st.open_trade_entry symbol
                ⟨date, execution_price, (quantity : ℚ), commission⟩ }
          else { st with portfolio := result.2 }))) := by
  have hexec : 0 < price * (1 + bt.slippage_pct) := mul_pos hprice hslip
  have hcap : 0 ≤ st.portfolio.cash * bt.position_size_pct := mul_nonneg hcash hpsize
  have hshares : bt.calculate_shares (price * (1 + bt.slippage_pct))
      (st.portfolio.cash * bt.position_size_pct) =
      ⌊st.portfolio.cash * bt.position_size_pct /
        (price * (1 + bt.slippage_pct) * (1 + bt.commission_pct))⌋ := by
    rcases eq_or_lt_of_le hcap with hzero | hpos
    · rw [Backtester.calculate_shares, if_pos (Or.inr (le_of_eq hzero.symm)), ← hzero,
        zero_div, Int.floor_zero]
    · have hguard : ¬ (price * (1 + bt.slippage_pct) ≤ 0 ∨
          st.portfolio.cash * bt.position_size_pct ≤ 0) := by
        push_neg
        exact ⟨hexec, hpos⟩
      rw [Backtester.calculate_shares, if_neg hguard]
      have hq : 0 ≤ st.portfolio.cash * bt.position_size_pct /
          (price * (1 + bt.slippage_pct) * (1 + bt.commission_pct)) :=
        div_nonneg (le_of_lt hpos) (le_of_lt (mul_pos hexec hcomm))
      rw [ratTrunc, if_neg (not_lt.2 hq)]
  refine ⟨hshares, ?_, ?_⟩
  · intro hq
    rw [Backtester.process_buy_signal]
    simp only [hnopos, Bool.false_eq_true, if_false, apply_slippage_buy, hshares, if_pos hq]
  · intro hq
    have hq2 : ¬ (⌊st.portfolio.cash * bt.position_size_pct /
        (price * (1 + bt.slippage_pct) * (1 + bt.commission_pct))⌋ ≤ 0) := not_le.2 hq
    have hcommEq : bt.calculate_commission
        ((⌊st.portfolio.cash * bt.position_size_pct /
          (price * (1 + bt.slippage_pct) * (1 + bt.commission_pct))⌋ : ℤ) : ℚ)
        (price * (1 + bt.slippage_pct)) =
        bt.commission_pct * ((⌊st.portfolio.cash * bt.position_size_pct /
          (price * (1 + bt.slippage_pct) * (1 + bt.commission_pct))⌋ : ℤ) : ℚ)
        * (price * (1 + bt.slippage_pct)) := by
      rw [Backtester.calculate_commission]
      ring
    rw [Backtester.process_buy_signal]
    simp only [hnopos, Bool.false_eq_true, if_false, apply_slippage_buy, hshares,
      if_neg hq2, hcommEq]

/-- Witness for C4 at concrete inputs: with cash 1000, full sizing, zero
commission and slippage, a buy signal at price 3 is sized as the floor of
1000/3 and the corresponding portfolio buy is performed. -/
theorem process_buy_signal_witness :
    (let execution_price := (3 : ℚ) * (1 + btPlain.slippage_pct)
     let quantity : ℤ := ⌊stBuyW.portfolio.cash * btPlain.position_size_pct /
        (execution_price * (1 + btPlain.commission_pct))⌋
     btPlain.calculate_shares execution_price
        (stBuyW.portfolio.cash * btPlain.position_size_pct) = quantity ∧
     (quantity ≤ 0 → btPlain.process_buy_signal stBuyW "A" 0 3 = stBuyW) ∧
     (0 < quantity →
       btPlain.process_buy_signal stBuyW "A" 0 3 =
         (let commission := btPlain.commission_pct * (quantity : ℚ) * execution_price
          let result := stBuyW.portfolio.buy "A" (quantity : ℚ) execution_price 0 commission
          if result.1 then
            { portfolio := result.2, trades := stBuyW.trades,
              open_trade_entry := dictSet stBuyW.open_trade_entry "A"
                ⟨0, execution_price, (quantity : ℚ), commission⟩ }
          else { stBuyW with portfolio := result.2 }))) :=
  process_buy_signal_follows_sizing_rule btPlain stBuyW "A" 0 3
    (by simp [stBuyW, Portfolio.init, Portfolio.has_position, dictGet])
    (by norm_num) (by norm_num [btPlain]) (by norm_num [btPlain])
    (by norm_num [stBuyW, Portfolio.init]) (by norm_num [btPlain])

lemma buy_preserves_histories (pf : Portfolio) (s : String) (sh p : ℚ) (d : Nat) (c : ℚ) :
    (pf.buy s sh p d c).2.dates = pf.dates ∧
    (pf.buy s sh p d c).2.equity_history = pf.equity_history := by
  rw [Portfolio.buy]
  by_cases h : pf.cash < sh * p + c
  · simp [h]
  · cases hg : dictGet pf.positions s <;> simp [h, hg]

lemma sell_preserves_histories (pf : Portfolio) (s : String) (sh : Option ℚ) (p : ℚ)
    (d : Nat) (c : ℚ) :
    (pf.sell s sh p d c).2.dates = pf.dates ∧
    (pf.sell s sh p d c).2.equity_history = pf.equity_history := by
  rw [Portfolio.sell]
  by_cases h : pf.has_position s = false
  · simp [h]
  · cases hg : dictGet pf.positions s
    · simp [h, hg]
    · rename_i pos
      by_cases hfull : pos.shares ≤ min (sh.getD pos.shares) pos.shares <;>
        simp [h, hg, hfull]

lemma process_buy_signal_preserves_histories (bt : Backtester) (st : RunState)
    (symbol : String) (d : Nat) (p : ℚ) :
    (bt.process_buy_signal st symbol d p).portfolio.dates = st.portfolio.dates ∧
    (bt.process_buy_signal st symbol d p).portfolio.equity_history
      = st.portfolio.equity_history := by
  rw [Backtester.process_buy_signal]
  by_cases h1 : st.portfolio.has_position symbol
  · simp [h1]
  · simp only [h1, Bool.false_eq_true, if_false]
    split_ifs <;> simp [buy_preserves_histories]

lemma process_sell_signal_preserves_histories (bt : Backtester) (st : RunState)
    (symbol : String) (d : Nat) (p : ℚ) :
    (bt.process_sell_signal st symbol d p).portfolio.dates = st.portfolio.dates ∧
    (bt.process_sell_signal st symbol d p).portfolio.equity_history
      = st.portfolio.equity_history := by
  rw [Backtester.process_sell_signal]
  by_cases h : st.portfolio.has_position symbol = false
  · simp [h]
  · cases hg : st.portfolio.get_position symbol
    · simp [h, hg]
    · cases ho : dictGet st.open_trade_entry symbol <;>
        simp [h, hg, ho, sell_preserves_histories]

lemma runLoop_cons (bt : Backtester) (symbol : String) (sigs : List (Nat × Int))
    (d : Nat) (c : ℚ) (rest : List (Nat × ℚ)) (st : RunState) :
    Backtester.runLoop bt symbol sigs ((d, c) :: rest) st =
      Backtester.runLoop bt symbol sigs rest (barStep bt symbol sigs d c st) := rfl

lemma barStep_histories (bt : Backtester) (symbol : String) (sigs : List (Nat × Int))
    (d : Nat) (c : ℚ) (st : RunState) :
    (barStep bt symbol sigs d c st).portfolio.dates = st.portfolio.dates ++ [d] ∧
    (barStep bt symbol sigs d c st).portfolio.equity_history.length
      = st.portfolio.equity_history.length + 1 := by
  by_cases hb : sigAt sigs d = 1
  · obtain ⟨a1, a2⟩ := process_buy_signal_preserves_histories bt st symbol d c
    simp [barStep, hb, Portfolio.update_history, a1, a2]
  · by_cases hs : sigAt sigs d = -1
    · obtain ⟨a1, a2⟩ := process_sell_signal_preserves_histories bt st symbol d c
      simp [barStep, hb, hs, Portfolio.update_history, a1, a2]
    · simp [barStep, hb, hs, Portfolio.update_history]

lemma runLoop_dates_equity (bt : Backtester) (symbol : String) (sigs : List (Nat × Int)) :
    ∀ (rows : List (Nat × ℚ)) (st : RunState),
      (Backtester.runLoop bt symbol sigs rows st).portfolio.dates
          = st.portfolio.dates ++ rows.map Prod.fst ∧
      (Backtester.runLoop bt symbol sigs rows st).portfolio.equity_history.length
          = st.portfolio.equity_history.length + rows.length := by
  intro rows
  induction rows with
  | nil => intro st; simp [Backtester.runLoop]
  | cons hd tl ih =>
      intro st
      obtain ⟨d, c⟩ := hd
      rw [runLoop_cons]
      obtain ⟨i1, i2⟩ := ih (barStep bt symbol sigs d c st)
      obtain ⟨b1, b2⟩ := barStep_histories bt symbol sigs d c st
      rw [i1, i2, b1, b2]
      constructor
      · simp
      · simp only [List.length_cons]
        omega

lemma buy_on_empty_positions (pf : Portfolio) (s : String) (sh p : ℚ) (d : Nat) (c : ℚ)
    (hpos : pf.positions = []) :
    pf.buy s sh p d c = (false, pf) ∨
    ((pf.buy s sh p d c).1 = true ∧
      (pf.buy s sh p d c).2.positions = [(s, ⟨s, sh, p, d⟩)]) := by
  rw [Portfolio.buy]
  by_cases h : pf.cash < sh * p + c
  · simp [h]
  · simp [h, hpos, dictGet, dictSet]

lemma runInv_process_buy (bt : Backtester) (st : RunState) (symbol : String)
    (d : Nat) (price : ℚ) (h : RunInv symbol st) :
    RunInv symbol (bt.process_buy_signal st symbol d price) := by
  rcases h with ⟨hpos, hote⟩ | ⟨p, e, hpos, hsh, hote⟩
  · have hnp : st.portfolio.has_position symbol = false := by
      simp [Portfolio.has_position, hpos, dictGet]
    rw [Backtester.process_buy_signal]
    simp only [hnp, Bool.false_eq_true, if_false]
    by_cases hq : bt.calculate_shares (bt.apply_slippage price "buy")
        (st.portfolio.cash * bt.position_size_pct) ≤ 0
    · simp only [if_pos hq]
      exact Or.inl ⟨hpos, hote⟩
    · simp only [if_neg hq]
      have hqpos : (0 : ℚ) < ((bt.calculate_shares (bt.apply_slippage price "buy")
          (st.portfolio.cash * bt.position_size_pct) : ℤ) : ℚ) := by
        exact_mod_cast lt_of_not_le hq
      rcases buy_on_empty_positions st.portfolio symbol
          ((bt.calculate_shares (bt.apply_slippage price "buy")
            (st.portfolio.cash * bt.position_size_pct) : ℤ) : ℚ)
          (bt.apply_slippage price "buy") d
          (bt.calculate_commission
            ((bt.calculate_shares (bt.apply_slippage price "buy")
              (st.portfolio.cash * bt.position_size_pct) : ℤ) : ℚ)
            (bt.apply_slippage price "buy")) hpos with hfail | ⟨hok, hnewpos⟩
      · rw [hfail]
        simp only [Bool.false_eq_true, if_false]
        exact Or.inl ⟨hpos, hote⟩
      · rw [if_pos hok]
        refine Or.inr ⟨⟨symbol, _, bt.apply_slippage price "buy", d⟩,
          ⟨d, bt.apply_slippage price "buy",
            ((bt.calculate_shares (bt.apply_slippage price "buy")
              (st.portfolio.cash * bt.position_size_pct) : ℤ) : ℚ),
            bt.calculate_commission
              ((bt.calculate_shares (bt.apply_slippage price "buy")
                (st.portfolio.cash * bt.position_size_pct) : ℤ) : ℚ)
              (bt.apply_slippage price "buy")⟩,
          hnewpos, hqpos, ?_⟩
        rw [hote]
        rfl
  · have hp : st.portfolio.has_position symbol = true := by
      simp [Portfolio.has_position, hpos, dictGet, hsh]
    rw [Backtester.process_buy_signal]
    simp only [hp, if_true]
    exact Or.inr ⟨p, e, hpos, hsh, hote⟩

lemma process_sell_on_single (bt : Backtester) (st : RunState) (symbol : String)
    (d : Nat) (price : ℚ) (p : Position) (e : EntryInfo)
    (hpos : st.portfolio.positions = [(symbol, p)]) (hsh : 0 < p.shares)
    (hote : st.open_trade_entry = [(symbol, e)]) :
    bt.process_sell_signal st symbol d price =
      { portfolio := { st.portfolio with
          cash := st.portfolio.cash + (p.shares * (price * (1 - bt.slippage_pct))
            - bt.calculate_commission p.shares (price * (1 - bt.slippage_pct))),
          positions := [] },
        trades := st.trades ++ [⟨symbol, e.entry_date, e.entry_price, d,
          price * (1 - bt.slippage_pct), p.shares, "long", e.entry_commission,
          bt.calculate_commission p.shares (price * (1 - bt.slippage_pct))⟩],
        open_trade_entry := [] } := by
  have hp : st.portfolio.has_position symbol = true := by
    simp [Portfolio.has_position, hpos, dictGet, hsh]
  rw [Backtester.process_sell_signal]
  simp [hp, Portfolio.get_position, hpos, dictGet, Portfolio.sell, Portfolio.has_position,
    hote, dictErase, List.filter_cons, apply_slippage_sell, min_self, le_refl, hsh.not_le]

lemma runInv_process_sell (bt : Backtester) (st : RunState) (symbol : String)
    (d : Nat) (price : ℚ) (h : RunInv symbol st) :
    RunInv symbol (bt.process_sell_signal st symbol d price) := by
  rcases h with ⟨hpos, hote⟩ | ⟨p, e, hpos, hsh, hote⟩
  · have hnp : st.portfolio.has_position symbol = false := by
      simp [Portfolio.has_position, hpos, dictGet]
    rw [Backtester.process_sell_signal]
    simp only [hnp, if_pos rfl]
    exact Or.inl ⟨hpos, hote⟩
  · rw [process_sell_on_single bt st symbol d price p e hpos hsh hote]
    exact Or.inl ⟨rfl, rfl⟩

lemma runInv_barStep (bt : Backtester) (symbol : String) (sigs : List (Nat × Int))
    (d : Nat) (c : ℚ) (st : RunState) (h : RunInv symbol st) :
    RunInv symbol (barStep bt symbol sigs d c st) := by
  have hupd : ∀ st1 : RunState, RunInv symbol st1 →
      RunInv symbol { st1 with portfolio := st1.portfolio.update_history d [(symbol, c)] } := by
    intro st1 h1
    rcases h1 with ⟨hpos, hote⟩ | ⟨p, e, hpos, hsh, hote⟩
    · exact Or.inl ⟨by simp [Portfolio.update_history, hpos], hote⟩
    · exact Or.inr ⟨p, e, by simp [Portfolio.update_history, hpos], hsh, hote⟩
  by_cases hb : sigAt sigs d = 1
  · simp only [barStep, hb, if_pos rfl]
    exact hupd _ (runInv_process_buy bt st symbol d c h)
  · by_cases hs : sigAt sigs d = -1
    · rw [barStep]
      simp only [hb, hs, if_false, if_pos rfl]
      exact hupd _ (runInv_process_sell bt st symbol d c h)
    · rw [barStep]
      simp only [hb, hs, if_false]
      exact hupd _ h

lemma runInv_runLoop (bt : Backtester) (symbol : String) (sigs : List (Nat × Int)) :
    ∀ (rows : List (Nat × ℚ)) (st : RunState), RunInv symbol st →
      RunInv symbol (Backtester.runLoop bt symbol sigs rows st) := by
  intro rows
  induction rows with
  | nil => intro st h; simpa [Backtester.runLoop] using h
  | cons hd tl ih =>
      intro st h
      obtain ⟨d, c⟩ := hd
      rw [runLoop_cons]
      exact ih _ (runInv_barStep bt symbol sigs d c st h)

/-- C5: every run ends with zero open positions, and when a position is
still open after the last bar the engine appends exactly one extra trade
whose exit date is the last bar timestamp, whose exit price is the final
close times (1 - slippage_pct), and whose exit commission is computed as
on a normal sell signal. -/
theorem run_forces_final_liquidation (bt : Backtester) (strategy : Strategy)
    (data : DataFrame) (symbolOpt : Option String) (hne : data.rows ≠ []) :
    (bt.runFinalState strategy data symbolOpt).portfolio.positions = [] ∧
    ((bt.runLoopState strategy data symbolOpt).portfolio.has_position
        (symbolOpt.getD "UNKNOWN") = true →
      ∃ p e, (bt.runLoopState strategy data symbolOpt).portfolio.positions
            = [(symbolOpt.getD "UNKNOWN", p)] ∧
        (bt.runLoopState strategy data symbolOpt).open_trade_entry
            = [(symbolOpt.getD "UNKNOWN", e)] ∧
        (bt.runFinalState strategy data symbolOpt).trades
            = (bt.runLoopState strategy data symbolOpt).trades ++
              [⟨symbolOpt.getD "UNKNOWN", e.entry_date, e.entry_price,
                (data.rows.getLast hne).1,
                (data.rows.getLast hne).2 * (1 - bt.slippage_pct), p.shares, "long",
                e.entry_commission,
                bt.calculate_commission p.shares
                  ((data.rows.getLast hne).2 * (1 - bt.slippage_pct))⟩]) := by
  have hinv : RunInv (symbolOpt.getD "UNKNOWN") (bt.runLoopState strategy data symbolOpt) :=
    runInv_runLoop bt (symbolOpt.getD "UNKNOWN") (strategy.generate_signals data)
      data.rows ⟨Portfolio.init bt.initial_capital, [], []⟩ (Or.inl ⟨rfl, rfl⟩)
  have hlast1 : ((data.rows.getLast?).map (fun x => x.1)).getD 0 = (data.rows.getLast hne).1 := by
    rw [List.getLast?_eq_getLast_of_ne_nil hne]
    rfl
  have hlast2 : ((data.rows.getLast?).map (fun x => x.2)).getD 0 = (data.rows.getLast hne).2 := by
    rw [List.getLast?_eq_getLast_of_ne_nil hne]
    rfl
  by_cases hp : (bt.runLoopState strategy data symbolOpt).portfolio.has_position
      (symbolOpt.getD "UNKNOWN") = true
  · rcases hinv with ⟨hpos, hote⟩ | ⟨p, e, hpos, hsh, hote⟩
    · rw [Portfolio.has_position, hpos] at hp
      simp [dictGet] at hp
    · have hfin : bt.runFinalState strategy data symbolOpt =
          bt.process_sell_signal (bt.runLoopState strategy data symbolOpt)
            (symbolOpt.getD "UNKNOWN") ((data.rows.getLast hne).1)
            ((data.rows.getLast hne).2) := by
        rw [Backtester.runFinalState]
        simp only [hp, if_pos, hlast1, hlast2]
      rw [hfin, process_sell_on_single bt _ _ _ _ p e hpos hsh hote]
      exact ⟨rfl, fun _ => ⟨p, e, hpos, hote, rfl⟩⟩
  · have hfin : bt.runFinalState strategy data symbolOpt =
        bt.runLoopState strategy data symbolOpt := by
      rw [Backtester.runFinalState]
      simp only [hp, Bool.false_eq_true, if_false]
    constructor
    · rw [hfin]
      rcases hinv with ⟨hpos, _⟩ | ⟨p, e, hpos, hsh, _⟩
      · exact hpos
      · exfalso
        apply hp
        simp [Portfolio.has_position, hpos, dictGet, hsh]
    · intro hcontra
      exact absurd hcontra hp

lemma dfOpenEnd_rows_ne_nil : dfOpenEnd.rows ≠ [] := by simp [dfOpenEnd]

/-- Witness for C5 at a concrete run whose single buy signal leaves the
position open until the end of the series. -/
theorem run_forces_final_liquidation_witness :
    (btC8.runFinalState stratOpenEnd dfOpenEnd (some "T")).portfolio.positions = [] ∧
    ((btC8.runLoopState stratOpenEnd dfOpenEnd (some "T")).portfolio.has_position
        ((some "T").getD "UNKNOWN") = true →
      ∃ p e, (btC8.runLoopState stratOpenEnd dfOpenEnd (some "T")).portfolio.positions
            = [((some "T").getD "UNKNOWN", p)] ∧
        (btC8.runLoopState stratOpenEnd dfOpenEnd (some "T")).open_trade_entry
            = [((some "T").getD "UNKNOWN", e)] ∧
        (btC8.runFinalState stratOpenEnd dfOpenEnd (some "T")).trades
            = (btC8.runLoopState stratOpenEnd dfOpenEnd (some "T")).trades ++
              [⟨(some "T").getD "UNKNOWN", e.entry_date, e.entry_price,
                (dfOpenEnd.rows.getLast dfOpenEnd_rows_ne_nil).1,
                (dfOpenEnd.rows.getLast dfOpenEnd_rows_ne_nil).2 * (1 - btC8.slippage_pct),
                p.shares, "long", e.entry_commission,
                btC8.calculate_commission p.shares
                  ((dfOpenEnd.rows.getLast dfOpenEnd_rows_ne_nil).2
                    * (1 - btC8.slippage_pct))⟩]) :=
  run_forces_final_liquidation btC8 stratOpenEnd dfOpenEnd (some "T") dfOpenEnd_rows_ne_nil

lemma runLoop_zero_signals (bt : Backtester) (symbol : String) (sigs : List (Nat × Int))
    (hsig : ∀ d, sigAt sigs d = 0) :
    ∀ (rows : List (Nat × ℚ)) (st : RunState),
      (Backtester.runLoop bt symbol sigs rows st).portfolio.cash = st.portfolio.cash ∧
      (Backtester.runLoop bt symbol sigs rows st).portfolio.positions
          = st.portfolio.positions ∧
      (Backtester.runLoop bt symbol sigs rows st).trades = st.trades := by
  intro rows
  induction rows with
  | nil => intro st; simp [Backtester.runLoop]
  | cons hd tl ih =>
      intro st
      obtain ⟨d, c⟩ := hd
      rw [runLoop_cons]
      obtain ⟨i1, i2, i3⟩ := ih (barStep bt symbol sigs d c st)
      have hb : barStep bt symbol sigs d c st =
          { st with portfolio := st.portfolio.update_history d [(symbol, c)] } := by
        rw [barStep]
        simp [hsig d]
      rw [i1, i2, i3, hb]
      simp [Portfolio.update_history]

/-- C6: when the strategy signal is 0 or absent at every timestamp, the
run produces an ok result with an empty trade list, final capital equal to
the initial capital, and the portfolio cash untouched by the whole run. -/
theorem run_zero_signals_identity (bt : Backtester) (strategy : Strategy)
    (data : DataFrame) (symbolOpt : Option String)
    (hne : data.rows ≠ []) (hclose : "close" ∈ data.cols)
    (hsig : ∀ d, sigAt (strategy.generate_signals data) d = 0) :
    ∃ r, bt.run strategy data symbolOpt = Except.ok r ∧ r.trades = [] ∧
      r.final_capital = bt.initial_capital ∧
      (bt.runFinalState strategy data symbolOpt).portfolio.cash = bt.initial_capital := by
  obtain ⟨hc, hp, ht⟩ := runLoop_zero_signals bt (symbolOpt.getD "UNKNOWN")
      (strategy.generate_signals data) hsig data.rows
      ⟨Portfolio.init bt.initial_capital, [], []⟩
  have hcL : (bt.runLoopState strategy data symbolOpt).portfolio.cash
      = bt.initial_capital := by
    rw [Backtester.runLoopState]
    simpa [Portfolio.init] using hc
  have hpL : (bt.runLoopState strategy data symbolOpt).portfolio.positions = [] := by
    rw [Backtester.runLoopState]
    simpa [Portfolio.init] using hp
  have htL : (bt.runLoopState strategy data symbolOpt).trades = [] := by
    rw [Backtester.runLoopState]
    simpa using ht
  have hnp : (bt.runLoopState strategy data symbolOpt).portfolio.has_position
      (symbolOpt.getD "UNKNOWN") = false := by
    rw [Portfolio.has_position, hpL]
    rfl
  have hfin : bt.runFinalState strategy data symbolOpt
      = bt.runLoopState strategy data symbolOpt := by
    rw [Backtester.runFinalState]
    simp only [hnp, Bool.false_eq_true, if_false]
  have hclose2 : ¬ "close" ∉ data.cols := by simpa using hclose
  rw [Backtester.run, if_neg hne, if_neg hclose2]
  refine ⟨_, rfl, ?_, ?_, ?_⟩
  · rw [hfin]
    exact htL
  · rw [hfin, Portfolio.total_value, Portfolio.position_value, hpL, hcL]
    simp
  · rw [hfin]
    exact hcL

/-- Witness for C6 at a concrete run: a flat strategy over a 2-bar series
yields an ok result with no trades and the initial capital intact. -/
theorem run_zero_signals_identity_witness :
    ∃ r, btC8.run stratFlat dfOpenEnd (some "T") = Except.ok r ∧ r.trades = [] ∧
      r.final_capital = btC8.initial_capital ∧
      (btC8.runFinalState stratFlat dfOpenEnd (some "T")).portfolio.cash
        = btC8.initial_capital :=
  run_zero_signals_identity btC8 stratFlat dfOpenEnd (some "T")
    (by simp [dfOpenEnd]) (by simp [dfOpenEnd]) (fun _ => rfl)

/-- C10: the equity curve of a run has exactly one entry per input bar, in
input order; the end-of-series forced liquidation happens after the last
snapshot and appends no entry, while final_capital is taken from the
portfolio after the forced sell, so on a run ending with an open position
the two can differ, as the concrete buy-and-hold run shows. -/
theorem run_equity_curve_matches_bars (bt : Backtester) (strategy : Strategy)
    (data : DataFrame) (symbolOpt : Option String)
    (hne : data.rows ≠ []) (hclose : "close" ∈ data.cols) :
    (∃ r, bt.run strategy data symbolOpt = Except.ok r ∧
      r.equity_curve.length = data.rows.length ∧
      r.equity_curve.map Prod.fst = data.rows.map Prod.fst ∧
      r.equity_curve = (bt.runLoopState strategy data symbolOpt).portfolio.get_equity_curve ∧
      r.final_capital = (bt.runFinalState strategy data symbolOpt).portfolio.total_value) ∧
    ((runEquityCurve (btC8.run stratOpenEnd dfOpenEnd (some "T"))).map Prod.snd).getLast?
      ≠ some (runFinalCapital (btC8.run stratOpenEnd dfOpenEnd (some "T"))) := by
  constructor
  · obtain ⟨hd, he⟩ := runLoop_dates_equity bt (symbolOpt.getD "UNKNOWN")
        (strategy.generate_signals data) data.rows
        ⟨Portfolio.init bt.initial_capital, [], []⟩
    have hdL : (bt.runLoopState strategy data symbolOpt).portfolio.dates
        = data.rows.map Prod.fst := by
      rw [Backtester.runLoopState]
      simpa [Portfolio.init] using hd
    have heL : (bt.runLoopState strategy data symbolOpt).portfolio.equity_history.length
        = data.rows.length := by
      rw [Backtester.runLoopState]
      simpa [Portfolio.init] using he
    have hcurveF : (bt.runFinalState strategy data symbolOpt).portfolio.get_equity_curve
        = (bt.runLoopState strategy data symbolOpt).portfolio.get_equity_curve := by
      rw [Backtester.runFinalState]
      by_cases hp : (bt.runLoopState strategy data symbolOpt).portfolio.has_position
          (symbolOpt.getD "UNKNOWN") = true
      · simp only [hp, if_pos]
        obtain ⟨s1, s2⟩ := process_sell_signal_preserves_histories bt
          (bt.runLoopState strategy data symbolOpt) (symbolOpt.getD "UNKNOWN")
          (((data.rows.getLast?).map (fun x => x.1)).getD 0)
          (((data.rows.getLast?).map (fun x => x.2)).getD 0)
        rw [Portfolio.get_equity_curve, Portfolio.get_equity_curve, s1, s2]
      · simp only [hp, Bool.false_eq_true, if_false]
    have hle : (bt.runLoopState strategy data symbolOpt).portfolio.dates.length
        ≤ (bt.runLoopState strategy data symbolOpt).portfolio.equity_history.length := by
      rw [hdL, heL, List.length_map]
    have hlen : (bt.runLoopState strategy data symbolOpt).portfolio.get_equity_curve.length
        = data.rows.length := by
      rw [Portfolio.get_equity_curve, List.length_zip, hdL, heL, List.length_map, min_self]
    have hmap : (bt.runLoopState strategy data symbolOpt).portfolio.get_equity_curve.map
        Prod.fst = data.rows.map Prod.fst := by
      rw [Portfolio.get_equity_curve, List.map_fst_zip _ _ hle, hdL]
    have hclose2 : ¬ "close" ∉ data.cols := by simpa using hclose
    rw [Backtester.run, if_neg hne, if_neg hclose2]
    exact ⟨_, rfl, by rw [hcurveF]; exact hlen, by rw [hcurveF]; exact hmap, hcurveF, rfl⟩
  · norm_num [runEquityCurve, runFinalCapital, Backtester.run, Backtester.runFinalState,
      Backtester.runLoopState, Backtester.runLoop,
      Backtester.process_buy_signal, Backtester.process_sell_signal,
      apply_slippage_buy, apply_slippage_sell, Backtester.calculate_shares,
      Backtester.calculate_commission, ratTrunc, sigAt,
      Portfolio.init, Portfolio.buy, Portfolio.sell,
      Portfolio.update_history, Portfolio.has_position,
      Portfolio.get_position, Portfolio.position_value,
      Portfolio.total_value, Position.cost_basis,
      Position.current_value, dictGet, dictSet,
      dictErase, btC8, stratOpenEnd, dfOpenEnd,
      Portfolio.get_equity_curve, List.zip, List.zipWith, List.getLast?,
      (show [((0 : Nat), (100 : ℚ)), (1, 100)] ≠ [] from by simp)]

/-- Witness for C10 at the concrete 5-bar example data. -/
theorem run_equity_curve_matches_bars_witness :
    (∃ r, btC8.run stratC8 dfC8 (some "T2") = Except.ok r ∧
      r.equity_curve.length = dfC8.rows.length ∧
      r.equity_curve.map Prod.fst = dfC8.rows.map Prod.fst ∧
      r.equity_curve = (btC8.runLoopState stratC8 dfC8 (some "T2")).portfolio.get_equity_curve ∧
      r.final_capital
        = (btC8.runFinalState stratC8 dfC8 (some "T2")).portfolio.total_value) ∧
    ((runEquityCurve (btC8.run stratOpenEnd dfOpenEnd (some "T"))).map Prod.snd).getLast?
      ≠ some (runFinalCapital (btC8.run stratOpenEnd dfOpenEnd (some "T"))) :=
  run_equity_curve_matches_bars btC8 stratC8 dfC8 (some "T2")
    (by simp [dfC8]) (by simp [dfC8])

end TradingLab
